import Mathlib

/-
  Verification development for the NanoBanana image batch editor.

  Shallow embedding of the client-side batch processing core:
    - the per-image record type and its lifecycle statuses,
    - the pure prompt-composition and tag-normalization pipelines,
    - the batch scheduler modelled as a small-step event system over the
      store of image records plus the multiset of in-flight edit calls.

  Conventions of the embedding:
    - JavaScript string operations (trim, split, toLowerCase, the
      `replace` of a single trailing period, Set-based dedup preserving
      insertion order, `includes`) are reimplemented as executable Lean
      functions on character lists.
    - The React effect that drives the batch loop re-fires after every
      state commit and cancels its own pending timer on every change, so
      one loop pass (guards, selection of the next queued record, marking
      it processing and dispatching the edit call) is modelled as one
      atomic step; the asynchronous resolution of a dispatched call is a
      separate step acting on the list of pending calls, which survive
      cancellation exactly as the in-flight promises do.
    - The scheduler is modelled in the configuration exercised by the
      claims: auto-tag-before-processing disabled, randomization
      disabled, natural-language mode off.  `Date.now()` and
      `Math.random()` used only for clone-id generation are supplied as
      explicit parameters.
    - External collaborators (localStorage persistence of prompt history
      and the daily counter, the zip packer, the remote API transport)
      are outside the store and not modelled; only their classified
      outcomes (success / rate-limit / generic failure) reach the store.
-/

set_option maxRecDepth 10000

namespace NanoBanana

/-! ## Data model (types.ts) -/

inductive ImageStatus where
  | QUEUED
  | PROCESSING
  | COMPLETED
  | ERROR
deriving DecidableEq, Repr

/-- One image record of the queue state store (interface ImageFile in
types.ts).  `fileType` stands for `file.type`; the raw blob and the
modal-only `history` / `hasBeenAutoTaggedInModal` fields play no role in
the scheduler claims and are omitted. `retried = false` models the
JavaScript `undefined`, which the code only ever tests for truthiness. -/
structure ImageFile where
  id : String
  originalDataUrl : String
  fileType : String := ""
  editedDataUrl : Option String := none
  status : ImageStatus
  prompt : Option String := none
  error : Option String := none
  retried : Bool := false
deriving DecidableEq, Repr

/-! ## JavaScript string primitives -/

/-- Does the character list start with the given needle? -/
def chsStartsWith : List Char → List Char → Bool
  | _, [] => true
  | [], _ :: _ => false
  | a :: as, b :: bs => a == b && chsStartsWith as bs

/-- Substring containment on character lists. -/
def chsContains (hay needle : List Char) : Bool :=
  match hay with
  | [] => needle.isEmpty
  | _ :: t => chsStartsWith hay needle || chsContains t needle

/-- JavaScript `String.prototype.includes`. -/
def jsIncludes (s sub : String) : Bool :=
  chsContains s.toList sub.toList

/-- JavaScript `String.prototype.trim`. -/
def jsTrim (s : String) : String :=
  ⟨((s.toList.dropWhile Char.isWhitespace).reverse.dropWhile Char.isWhitespace).reverse⟩

def jsSplitAux (sep : Char) : List Char → List Char → List String
  | [], cur => [⟨cur.reverse⟩]
  | c :: rest, cur =>
      if c == sep then ⟨cur.reverse⟩ :: jsSplitAux sep rest []
      else jsSplitAux sep rest (c :: cur)

/-- JavaScript `String.prototype.split` with a one-character separator:
always returns one more piece than there are separators, so the result is
never empty. -/
def jsSplit (sep : Char) (s : String) : List String :=
  jsSplitAux sep s.toList []

/-- JavaScript `String.prototype.toLowerCase` (ASCII fragment). -/
def jsToLower (s : String) : String :=
  ⟨s.toList.map Char.toLower⟩

/-- JavaScript `s.replace(/\.$/, '')`: drop a single trailing period. -/
def stripTrailingPeriod (s : String) : String :=
  match s.toList.reverse with
  | '.' :: rest => ⟨rest.reverse⟩
  | _ => s

def dedupFirstAux (seen : List String) : List String → List String
  | [] => []
  | a :: l =>
      if seen.contains a then dedupFirstAux seen l
      else a :: dedupFirstAux (a :: seen) l

/-- JavaScript `[...new Set(l)]`: deduplicate keeping the first
occurrence of each element, preserving order. -/
def dedupFirst (l : List String) : List String :=
  dedupFirstAux [] l

/-- `s.split(',').map(t => t.trim()).filter(Boolean)`. -/
def splitTags (s : String) : List String :=
  ((jsSplit ',' s).map jsTrim).filter (fun t => t != "")

/-! ## Prompt Composer (App.tsx startProcessing, tag mode) -/

/-- Tag-mode prompt composition of the non-randomized branch
(App.tsx lines 426-429): global prompt tags, then per-image prompt tags,
set-union dedup preserving first occurrence, joined with a comma-space. -/
def composeTags (currentPrompt imagePrompt : String) : String :=
  let basePromptTags := splitTags (jsTrim currentPrompt)
  let imagePromptTags := splitTags (jsTrim imagePrompt)
  String.intercalate ", " (dedupFirst (basePromptTags ++ imagePromptTags))

/-- Tag-mode prompt composition with random fragments
(App.tsx lines 404-412): global, then image, then the random fragments
joined on a comma and re-split, set-union dedup, comma-space join. -/
def composeTagsRand (currentPrompt imagePrompt : String)
    (randomPrompts : List String) : String :=
  let basePromptTags := splitTags (jsTrim currentPrompt)
  let imagePromptTags := splitTags (jsTrim imagePrompt)
  let randomTags :=
    if randomPrompts.length > 0 then splitTags (String.intercalate "," randomPrompts)
    else []
  String.intercalate ", " (dedupFirst (basePromptTags ++ imagePromptTags ++ randomTags))

/-! ## Tagging normalization -/

/-- Post-processing of a tagging-service response in the batch paths
(App.tsx lines 298-301 and 979-982): strip a single trailing period,
trim, split on commas, trim and lowercase each part, drop empties, dedup
preserving first occurrence, rejoin with a comma-space. -/
def normalizeTags (tags : String) : String :=
  let cleanedTags := jsTrim (stripTrailingPeriod tags)
  let allTags :=
    ((jsSplit ',' cleanedTags).map (fun t => jsToLower (jsTrim t))).filter (fun t => t != "")
  String.intercalate ", " (dedupFirst allTags)

/-- Post-processing of a tagging-service response in the single-image
edit modal (ImageEditModal.tsx lines 71-74): the response is first
truncated at the first period via `split('.')[0]`, then the same
strip/trim/split/lowercase/dedup pipeline is applied. -/
def modalTagNormalize (tagsResponse : String) : String :=
  let tagsPart := (jsSplit '.' tagsResponse).headD ""
  let cleanedTags := jsTrim (stripTrailingPeriod tagsPart)
  let allTags :=
    ((jsSplit ',' cleanedTags).map (fun t => jsToLower (jsTrim t))).filter (fun t => t != "")
  String.intercalate ", " (dedupFirst allTags)

/-! ## App state and batch scheduler (App.tsx) -/

/-- The React state driving the batch scheduler.  `coolTimerSet` records
that the 15-second cooldown timer armed by the rate-limit branch is
outstanding (the code never clears that timer). -/
structure AppState where
  images : List ImageFile
  isProcessing : Bool := false
  isCoolingDown : Bool := false
  coolTimerSet : Bool := false
  statusMessage : String := ""
  totalInBatch : Nat := 0
  throttleDelay : Nat := 0
  currentPrompt : String := ""
  repeatCount : Nat := 1
deriving DecidableEq, Repr

/-- An in-flight `editImage` call: the dispatch closure captures the
target record's id and its `file.type`. -/
structure PendingCall where
  targetId : String
  fileType : String := ""
deriving DecidableEq, Repr

/-- Whole-system state: the React app state plus the in-flight edit
calls, which are not cancelled together with the batch. -/
structure Sys where
  app : AppState
  pending : List PendingCall := []
deriving DecidableEq, Repr

/-- Derived count (App.tsx line 1031). -/
def queuedCount (a : AppState) : Nat :=
  (a.images.filter (fun img => img.status == ImageStatus.QUEUED)).length

/-- Derived count (App.tsx line 1032). -/
def processingCount (a : AppState) : Nat :=
  (a.images.filter (fun img => img.status == ImageStatus.PROCESSING)).length

/-- Batch progress numerator (App.tsx line 1036). -/
def processedInBatch (a : AppState) : Nat :=
  if a.totalInBatch > 0 then a.totalInBatch - queuedCount a - processingCount a else 0

/-- Throttle delay computed before each dequeue (App.tsx lines 501-502):
the configured delay (in milliseconds) if any record of the store is
COMPLETED or ERROR, else zero. -/
def dispatchDelay (a : AppState) : Nat :=
  let hasProcessedImages := a.images.any (fun i =>
    i.status == ImageStatus.COMPLETED || i.status == ImageStatus.ERROR)
  if hasProcessedImages then a.throttleDelay * 1000 else 0

/-- `dataUrl.split(',')[1]` with the falsiness check of the dispatch and
tagging paths: `none` when the data URL has no non-empty payload. -/
def splitDataUrl (u : String) : Option String :=
  match jsSplit ',' u with
  | _ :: d :: _ => if d == "" then none else some d
  | _ => none

/-- Image upload handler (App.tsx handleImagesSelected, lines 242-264).
Each file is given as (generated id, data URL, media type); a non-empty
upload of n files overwrites the repeat count with max(1, ceil(40/n)),
the new records are appended QUEUED, and a running batch's denominator
grows by n. -/
def handleImagesSelected (files : List (String × String × String))
    (a : AppState) : AppState :=
  let a1 :=
    if files.length > 0 then
      { a with repeatCount := max 1 ((40 + files.length - 1) / files.length) }
    else a
  let newImageFiles : List ImageFile := files.map (fun f =>
    { id := f.1, originalDataUrl := f.2.1, fileType := f.2.2,
      status := ImageStatus.QUEUED })
  { a1 with
      images := a1.images ++ newImageFiles,
      totalInBatch :=
        if a1.isProcessing then a1.totalInBatch + newImageFiles.length
        else a1.totalInBatch }

/-- Clone id template of the repeat expansion, with `Date.now()` and
`Math.random()` supplied as numeric nonces. -/
def repeatCloneId (baseId : String) (i now rnd : Nat) : String :=
  baseId ++ "-repeat-" ++ toString i ++ "-" ++ toString now ++ "-" ++ toString rnd

/-- The clones created for each source record in the non-randomized
repeat expansion (App.tsx lines 438-446): `repeatCount - 1` copies per
record, sharing the record's composed prompt, with fresh suffixed ids.
`p` numbers the source records so each copy draws its own
`Math.random()` value from `rng`. -/
def makeCopies (repeatCount now : Nat) (rng : Nat → Nat) :
    Nat → List ImageFile → List ImageFile
  | _, [] => []
  | p, image :: rest =>
      ((List.range (repeatCount - 1)).map (fun i =>
        { image with
            id := repeatCloneId image.id (i + 1) now (rng (p * (repeatCount - 1) + i)) }))
      ++ makeCopies repeatCount now rng (p + 1) rest

/-- Non-randomized repeat expansion (App.tsx lines 418-447): every queued
record gets its composed prompt, and for `repeatCount > 1` the copies are
appended after all the originals. -/
def expandQueuedRepeats (currentPrompt : String) (repeatCount now : Nat)
    (rng : Nat → Nat) (queuedImages : List ImageFile) : List ImageFile :=
  let allQueuedImagesWithPrompts := queuedImages.map (fun image =>
    { image with prompt := some (composeTags currentPrompt (image.prompt.getD "")) })
  if repeatCount > 1 then
    allQueuedImagesWithPrompts ++ makeCopies repeatCount now rng 0 allQueuedImagesWithPrompts
  else allQueuedImagesWithPrompts

/-- Batch start (App.tsx startProcessing, lines 266-461) in the modelled
configuration (auto-tag off, randomization off, tag mode): validate,
reject when already processing or the queue is empty, replace the queued
records by the repeat expansion, set the batch denominator, and enter the
running state.  Prompt-history persistence is an external collaborator
and is not modelled. -/
def startProcessing (now : Nat) (rng : Nat → Nat) (a : AppState) :
    Option AppState :=
  let hasPrompt := jsTrim a.currentPrompt != ""
  let hasIndividualPrompts := a.images.any (fun img =>
    img.status == ImageStatus.QUEUED && img.prompt.getD "" != "")
  if !hasPrompt && !hasIndividualPrompts then none
  else if a.isProcessing then none
  else
    let queuedImages := a.images.filter (fun img => img.status == ImageStatus.QUEUED)
    if queuedImages.length == 0 then none
    else
      let allQueuedImages := expandQueuedRepeats a.currentPrompt a.repeatCount now rng queuedImages
      some { a with
        isProcessing := true,
        images := (a.images.filter (fun img => img.status != ImageStatus.QUEUED))
                    ++ allQueuedImages,
        totalInBatch := allQueuedImages.length,
        statusMessage := "" }

/-- Per-record update of cancellation (App.tsx lines 848-852): a
PROCESSING record reverts to QUEUED, all others are untouched. -/
def cancelRevert (img : ImageFile) : ImageFile :=
  if img.status == ImageStatus.PROCESSING then
    { img with status := ImageStatus.QUEUED }
  else img

/-- Batch cancellation (App.tsx handleCancelProcessing, lines 841-853):
only while processing; leaves the running state and cooldown, reverts any
PROCESSING record to QUEUED.  In-flight calls are not aborted. -/
def handleCancelProcessing (a : AppState) : Option AppState :=
  if !a.isProcessing then none
  else some { a with
    isProcessing := false,
    isCoolingDown := false,
    statusMessage := "",
    images := a.images.map cancelRevert }

/-- Per-record update of the manual retry (App.tsx lines 689-695): every
ERROR record is requeued with `error` and `retried` cleared. -/
def manualRequeue (img : ImageFile) : ImageFile :=
  if img.status == ImageStatus.ERROR then
    { img with status := ImageStatus.QUEUED, error := none, retried := false }
  else img

/-- Manual requeue of failed records (App.tsx handleRetryFailed, lines
680-697): only while idle and with at least one ERROR record; requeues
them with `error` and `retried` cleared and starts processing with the
batch denominator set to their number. -/
def handleRetryFailed (a : AppState) : Option AppState :=
  if a.isProcessing then none
  else
    let failedToRetry := a.images.filter (fun img => img.status == ImageStatus.ERROR)
    if failedToRetry.length == 0 then none
    else some { a with
      totalInBatch := failedToRetry.length,
      statusMessage := "",
      images := a.images.map manualRequeue,
      isProcessing := true }

def autoRetryMessage (n : Nat) : String :=
  "Batch complete. Automatically retrying " ++ toString n ++ " failed image(s)..."

def hasAutoRetryMsg (a : AppState) : Bool :=
  jsIncludes a.statusMessage "Automatically retrying"

/-- Per-record update of the automatic retry pass (App.tsx lines
480-487): records matched by id against the snapshot of unretried ERROR
records are requeued with the retried flag set. -/
def autoRequeue (imagesToAutoRetry : List ImageFile) (img : ImageFile) : ImageFile :=
  if imagesToAutoRetry.any (fun retryImg => retryImg.id == img.id) then
    { img with status := ImageStatus.QUEUED, error := none, retried := true }
  else img

/-- Per-record update of the dispatch (App.tsx lines 507-513): the
selected record becomes PROCESSING with its resolved prompt and a
cleared error. -/
def markProcessing (nextImage : ImageFile) (img : ImageFile) : ImageFile :=
  if img.id == nextImage.id then
    { img with status := ImageStatus.PROCESSING,
               prompt := some (nextImage.prompt.getD ""), error := none }
  else img

/-- Per-record update of the synchronous data-URL failure (App.tsx lines
516-517 with the generic catch of lines 553-565). -/
def markInvalidData (nextImage : ImageFile) (img : ImageFile) : ImageFile :=
  if img.id == nextImage.id then
    { img with status := ImageStatus.ERROR, error := some "Invalid image data URL." }
  else img

/-- One pass of the batch scheduler effect (App.tsx useEffect, lines
463-571) up to and including the dispatch of the edit call: guards
(running, not cooling down, nothing processing), then either the
auto-retry / go-idle bookkeeping when the queue is drained, or the FIFO
selection of the next queued record, its transition to PROCESSING with a
cleared error, and the registration of the in-flight call.  The
synchronous throw on a malformed data URL lands the record in ERROR with
no call dispatched. -/
def schedulerTick (s : Sys) : Option Sys :=
  let a := s.app
  if !a.isProcessing || a.isCoolingDown then none
  else if a.images.any (fun img => img.status == ImageStatus.PROCESSING) then none
  else
    match a.images.find? (fun img => img.status == ImageStatus.QUEUED) with
    | none =>
        let imagesToAutoRetry := a.images.filter (fun img =>
          img.status == ImageStatus.ERROR && !img.retried)
        if imagesToAutoRetry.length > 0 then
          some { s with app := { a with
            statusMessage := autoRetryMessage imagesToAutoRetry.length,
            images := a.images.map (autoRequeue imagesToAutoRetry) } }
        else
          some { s with app := { a with
            isProcessing := false,
            statusMessage := if hasAutoRetryMsg a then "" else a.statusMessage } }
    | some nextImage =>
        let a1 := { a with
          statusMessage := if hasAutoRetryMsg a then "" else a.statusMessage }
        let marked := a1.images.map (markProcessing nextImage)
        match splitDataUrl nextImage.originalDataUrl with
        | some _ =>
            some { app := { a1 with images := marked },
                   pending := s.pending ++ [⟨nextImage.id, nextImage.fileType⟩] }
        | none =>
            some { app := { a1 with images := marked.map (markInvalidData nextImage) },
                   pending := s.pending }

/-- Per-record update of a successful edit resolution (App.tsx lines
525-535). -/
def applyEditSuccess (call : PendingCall) (editedData : String)
    (img : ImageFile) : ImageFile :=
  if img.id == call.targetId then
    { img with status := ImageStatus.COMPLETED,
               editedDataUrl := some ("data:" ++ call.fileType ++ ";base64," ++ editedData) }
  else img

/-- Per-record update of a rate-limited edit resolution (App.tsx lines
543-548). -/
def applyRateLimitRequeue (call : PendingCall) (img : ImageFile) : ImageFile :=
  if img.id == call.targetId then
    { img with status := ImageStatus.QUEUED,
               error := some "Rate limited. Will retry." }
  else img

/-- Per-record update of a generic edit failure (App.tsx lines 554-564). -/
def applyGenericFailure (call : PendingCall) (msg : String)
    (img : ImageFile) : ImageFile :=
  if img.id == call.targetId then
    { img with status := ImageStatus.ERROR, error := some msg }
  else img

/-- Resolution of an in-flight edit call that succeeded (App.tsx lines
525-536): the captured record id is marked COMPLETED with the edited
data URL, whatever its current status. -/
def resolveSuccess (call : PendingCall) (editedData : String)
    (a : AppState) : AppState :=
  { a with images := a.images.map (applyEditSuccess call editedData) }

/-- Resolution of an in-flight edit call that failed with a
RateLimitError (App.tsx lines 540-552): the record returns to QUEUED
carrying an informational error, the loop enters cooldown, and the
15-second cooldown timer is armed. -/
def resolveRateLimit (call : PendingCall) (a : AppState) : AppState :=
  { a with
      statusMessage := "API rate limit hit. Pausing queue for 15 seconds...",
      isCoolingDown := true,
      coolTimerSet := true,
      images := a.images.map (applyRateLimitRequeue call) }

/-- Resolution of an in-flight edit call that failed with any other
error (App.tsx lines 553-565): the record is marked ERROR with the
failure description. -/
def resolveGenericError (call : PendingCall) (msg : String)
    (a : AppState) : AppState :=
  { a with images := a.images.map (applyGenericFailure call msg) }

/-- Expiry of the armed cooldown timer (App.tsx lines 549-552). -/
def cooldownElapsed (a : AppState) : Option AppState :=
  if a.coolTimerSet then
    some { a with statusMessage := "", isCoolingDown := false, coolTimerSet := false }
  else none

/-- Outcome of an in-flight edit call as classified by the service
adapter (geminiService: RateLimitError on a 429, generic Error
otherwise). -/
inductive Outcome where
  | success (editedData : String)
  | rateLimited
  | genericError (msg : String)

/-- The events that drive the store under the batch scheduler. -/
inductive Event where
  | tick
  | resolve (i : Nat) (o : Outcome)
  | cooldownFires
  | cancel
  | uploadImages (files : List (String × String × String))
  | startBatch (now : Nat) (rng : Nat → Nat)
  | retryFailed

/-- Small-step semantics: `none` when the event is not enabled. -/
def stepEvent : Event → Sys → Option Sys
  | .tick, s => schedulerTick s
  | .resolve i o, s =>
      match s.pending[i]? with
      | none => none
      | some call =>
          let rest := s.pending.eraseIdx i
          match o with
          | .success d => some { app := resolveSuccess call d s.app, pending := rest }
          | .rateLimited => some { app := resolveRateLimit call s.app, pending := rest }
          | .genericError m => some { app := resolveGenericError call m s.app, pending := rest }
  | .cooldownFires, s => (cooldownElapsed s.app).map (fun a => { s with app := a })
  | .cancel, s => (handleCancelProcessing s.app).map (fun a => { s with app := a })
  | .uploadImages files, s => some { s with app := handleImagesSelected files s.app }
  | .startBatch now rng, s => (startProcessing now rng s.app).map (fun a => { s with app := a })
  | .retryFailed, s => (handleRetryFailed s.app).map (fun a => { s with app := a })

/-- Run a list of events from a state; `none` if any event is refused. -/
def runEvents (s : Sys) : List Event → Option Sys
  | [] => some s
  | e :: es =>
      match stepEvent e s with
      | none => none
      | some s1 => runEvents s1 es

/-- The data model declares record ids opaque unique identifiers; the
code draws them from filenames, `Date.now()` and `Math.random()`.  The
two events that introduce new ids are taken along a trace only when the
resulting id list is duplicate-free, mirroring that assumption. -/
def FreshIds (s : Sys) (e : Event) : Prop :=
  match e with
  | .uploadImages _ =>
      ∀ t, stepEvent e s = some t → (t.app.images.map (fun img => img.id)).Nodup
  | .startBatch _ _ =>
      ∀ t, stepEvent e s = some t → (t.app.images.map (fun img => img.id)).Nodup
  | _ => True

/-- Reachability along scheduler-driven event traces. -/
inductive Reach : Sys → Sys → Prop
  | refl (s : Sys) : Reach s s
  | step {s t u : Sys} {e : Event} :
      Reach s t → FreshIds t e → stepEvent e t = some u → Reach s u

/-- Number of records currently PROCESSING. -/
def procCount (l : List ImageFile) : Nat :=
  l.countP (fun img => img.status == ImageStatus.PROCESSING)

/-- No two distinct records of the store are simultaneously PROCESSING. -/
def NoTwoProcessing (s : Sys) : Prop :=
  ∀ i j : Fin s.app.images.length, i ≠ j →
    ¬((s.app.images.get i).status = ImageStatus.PROCESSING ∧
      (s.app.images.get j).status = ImageStatus.PROCESSING)

/-- Every PROCESSING record has its error field cleared. -/
def ErrClearedWhenProcessing (s : Sys) : Prop :=
  ∀ img ∈ s.app.images, img.status = ImageStatus.PROCESSING → img.error = none

/-! ## Concrete scenario states -/

/-- One uploaded record with a valid data URL and its own prompt. -/
def recA : ImageFile :=
  { id := "A", originalDataUrl := "data:image/png;base64,XYZ",
    fileType := "image/png", status := ImageStatus.QUEUED, prompt := some "p" }

/-- A running batch whose queue holds exactly `recA`. -/
def batchOfOne : Sys :=
  { app := { images := [recA], isProcessing := true, totalInBatch := 1,
             currentPrompt := "p", throttleDelay := 0 } }

/-- First source record of the repeat-expansion scenario. -/
def recImg1 : ImageFile :=
  { id := "img1", originalDataUrl := "data:image/png;base64,AA",
    status := ImageStatus.QUEUED, prompt := some "b, c" }

/-- Second source record of the repeat-expansion scenario. -/
def recImg2 : ImageFile :=
  { id := "img2", originalDataUrl := "data:image/png;base64,BB",
    status := ImageStatus.QUEUED }

/-- Idle store with two queued records, repeat count 3, global prompt
"a, b": the configuration of the repeat-expansion property. -/
def twoQueuedStart : Sys :=
  { app := { images := [recImg1, recImg2], currentPrompt := "a, b",
             repeatCount := 3 } }

/-- A record completed in an earlier batch and still in the store. -/
def recOldDone : ImageFile :=
  { id := "old", originalDataUrl := "data:image/png;base64,CC",
    status := ImageStatus.COMPLETED }

/-- A freshly uploaded record awaiting the next batch. -/
def recB : ImageFile :=
  { id := "B", originalDataUrl := "data:image/png;base64,DD",
    status := ImageStatus.QUEUED }

/-- Idle store holding one leftover COMPLETED record and one queued
record, throttle interval 5 seconds. -/
def leftoverStart : Sys :=
  { app := { images := [recOldDone, recB], currentPrompt := "p",
             throttleDelay := 5, repeatCount := 1 } }

/-- Idle store holding only one queued record, throttle 5 seconds. -/
def freshStart : Sys :=
  { app := { images := [recB], currentPrompt := "p",
             throttleDelay := 5, repeatCount := 1 } }

/-- A system state sitting in the rate-limit cooldown. -/
def coolingState : Sys :=
  { app := { images := [recA], isProcessing := true, isCoolingDown := true,
             coolTimerSet := true, totalInBatch := 1, currentPrompt := "p" } }

/-! ## Counting helper lemmas -/

lemma countP_agree {l : List ImageFile} {p q : ImageFile → Bool}
    (h : ∀ a ∈ l, p a = q a) : l.countP p = l.countP q := by
  induction l with
  | nil => rfl
  | cons a t ih =>
      simp only [List.countP_cons]
      rw [ih (fun x hx => h x (List.mem_cons_of_mem a hx)),
          h a (List.mem_cons_self a t)]

lemma countP_map_le {l : List ImageFile} {f : ImageFile → ImageFile}
    {p : ImageFile → Bool} (h : ∀ x, p (f x) = true → p x = true) :
    (l.map f).countP p ≤ l.countP p := by
  induction l with
  | nil => simp
  | cons a t ih =>
      simp only [List.map_cons, List.countP_cons]
      have hb : (if p (f a) = true then 1 else 0) ≤ (if p a = true then 1 else 0) := by
        cases hfa : p (f a)
        · simp
        · simp [h a hfa]
      exact Nat.add_le_add ih hb


lemma countP_id_le_one {l : List ImageFile}
    (h : (l.map (fun i => i.id)).Nodup) (v : String) :
    l.countP (fun x => x.id == v) ≤ 1 := by
  induction l with
  | nil => simp
  | cons a t ih =>
      simp only [List.map_cons, List.nodup_cons] at h
      simp only [List.countP_cons]
      by_cases hav : a.id = v
      · have hzero : t.countP (fun x => x.id == v) = 0 := by
          rw [List.countP_eq_zero]
          intro x hx hxv
          exact h.1 (List.mem_map.mpr ⟨x, hx, by
            rw [hav]; exact beq_iff_eq.mp hxv⟩)
        simp [hzero, hav]
      · have := ih h.2
        simp [hav]
        omega

lemma countP_two_of_get {α : Type} (l : List α) (p : α → Bool)
    (i j : Fin l.length) (hij : i ≠ j)
    (hi : p (l.get i) = true) (hj : p (l.get j) = true) :
    2 ≤ l.countP p := by
  induction l with
  | nil => exact absurd i.isLt (by simp)
  | cons a t ih =>
      cases i using Fin.cases with
      | zero =>
          cases j using Fin.cases with
          | zero => exact absurd rfl hij
          | succ j' =>
              have hmem : p (t.get j') = true := by simpa using hj
              have hpos : 0 < t.countP p :=
                List.countP_pos_iff.mpr ⟨t.get j', t.get_mem _ _, hmem⟩
              have hpa : p a = true := by simpa using hi
              rw [List.countP_cons]
              simp only [hpa, if_pos]
              omega
      | succ i' =>
          cases j using Fin.cases with
          | zero =>
              have hmem : p (t.get i') = true := by simpa using hi
              have hpos : 0 < t.countP p :=
                List.countP_pos_iff.mpr ⟨t.get i', t.get_mem _ _, hmem⟩
              have hpa : p a = true := by simpa using hj
              rw [List.countP_cons]
              simp only [hpa, if_pos]
              omega
          | succ j' =>
              have hij' : i' ≠ j' := by
                intro hcon; exact hij (by simp [hcon])
              have := ih i' j' hij' (by simpa using hi) (by simpa using hj)
              rw [List.countP_cons]
              omega

lemma map_ids_map {l : List ImageFile} {f : ImageFile → ImageFile}
    (h : ∀ x, (f x).id = x.id) :
    (l.map f).map (fun i => i.id) = l.map (fun i => i.id) := by
  rw [List.map_map]
  exact List.map_congr_left (fun x _ => h x)

/-! ## Statuses produced by the repeat expansion -/

lemma makeCopies_status (R now : Nat) (rng : Nat → Nat) :
    ∀ (p : Nat) (l : List ImageFile), ∀ y ∈ makeCopies R now rng p l,
      ∃ x ∈ l, y.status = x.status := by
  intro p l
  induction l generalizing p with
  | nil => intro y hy; simp [makeCopies] at hy
  | cons a t ih =>
      intro y hy
      simp only [makeCopies, List.mem_append] at hy
      rcases hy with hy | hy
      · rcases List.mem_map.mp hy with ⟨i, _, rfl⟩
        exact ⟨a, List.mem_cons_self a t, rfl⟩
      · rcases ih (p + 1) y hy with ⟨x, hx, hst⟩
        exact ⟨x, List.mem_cons_of_mem a hx, hst⟩

lemma expandQueuedRepeats_status (cp : String) (R now : Nat) (rng : Nat → Nat)
    (q : List ImageFile) (h : ∀ x ∈ q, x.status = ImageStatus.QUEUED) :
    ∀ y ∈ expandQueuedRepeats cp R now rng q, y.status = ImageStatus.QUEUED := by
  intro y hy
  simp only [expandQueuedRepeats] at hy
  by_cases hR : R > 1
  · simp only [hR, if_pos] at hy
    rcases List.mem_append.mp hy with hy | hy
    · rcases List.mem_map.mp hy with ⟨x, hx, rfl⟩
      exact h x hx
    · rcases makeCopies_status R now rng 0 _ y hy with ⟨x, hx, hst⟩
      rcases List.mem_map.mp hx with ⟨z, hz, rfl⟩
      rw [hst]; exact h z hz
  · simp only [hR, if_neg, not_false_iff] at hy
    rcases List.mem_map.mp hy with ⟨x, hx, rfl⟩
    exact h x hx

/-! ## Per-record transform facts -/

lemma autoRequeue_proc (lst : List ImageFile) (x : ImageFile) :
    ((autoRequeue lst x).status == ImageStatus.PROCESSING) = true →
    (x.status == ImageStatus.PROCESSING) = true := by
  unfold autoRequeue; split
  · intro h; simp at h
  · exact id

lemma autoRequeue_id (lst : List ImageFile) (x : ImageFile) :
    (autoRequeue lst x).id = x.id := by
  unfold autoRequeue; split <;> rfl

lemma cancelRevert_proc (x : ImageFile) :
    ((cancelRevert x).status == ImageStatus.PROCESSING) = true →
    (x.status == ImageStatus.PROCESSING) = true := by
  unfold cancelRevert; split
  · intro h; simp at h
  · exact id

lemma cancelRevert_id (x : ImageFile) : (cancelRevert x).id = x.id := by
  unfold cancelRevert; split <;> rfl

lemma manualRequeue_proc (x : ImageFile) :
    ((manualRequeue x).status == ImageStatus.PROCESSING) = true →
    (x.status == ImageStatus.PROCESSING) = true := by
  unfold manualRequeue; split
  · intro h; simp at h
  · exact id

lemma manualRequeue_id (x : ImageFile) : (manualRequeue x).id = x.id := by
  unfold manualRequeue; split <;> rfl

lemma markProcessing_id (n x : ImageFile) : (markProcessing n x).id = x.id := by
  unfold markProcessing; split <;> rfl

lemma markInvalidData_proc (n x : ImageFile) :
    ((markInvalidData n x).status == ImageStatus.PROCESSING) = true →
    (x.status == ImageStatus.PROCESSING) = true := by
  unfold markInvalidData; split
  · intro h; simp at h
  · exact id

lemma markInvalidData_id (n x : ImageFile) : (markInvalidData n x).id = x.id := by
  unfold markInvalidData; split <;> rfl

lemma applyEditSuccess_proc (c : PendingCall) (d : String) (x : ImageFile) :
    ((applyEditSuccess c d x).status == ImageStatus.PROCESSING) = true →
    (x.status == ImageStatus.PROCESSING) = true := by
  unfold applyEditSuccess; split
  · intro h; simp at h
  · exact id

lemma applyEditSuccess_id (c : PendingCall) (d : String) (x : ImageFile) :
    (applyEditSuccess c d x).id = x.id := by
  unfold applyEditSuccess; split <;> rfl

lemma applyRateLimitRequeue_proc (c : PendingCall) (x : ImageFile) :
    ((applyRateLimitRequeue c x).status == ImageStatus.PROCESSING) = true →
    (x.status == ImageStatus.PROCESSING) = true := by
  unfold applyRateLimitRequeue; split
  · intro h; simp at h
  · exact id

lemma applyRateLimitRequeue_id (c : PendingCall) (x : ImageFile) :
    (applyRateLimitRequeue c x).id = x.id := by
  unfold applyRateLimitRequeue; split <;> rfl

lemma applyGenericFailure_proc (c : PendingCall) (m : String) (x : ImageFile) :
    ((applyGenericFailure c m x).status == ImageStatus.PROCESSING) = true →
    (x.status == ImageStatus.PROCESSING) = true := by
  unfold applyGenericFailure; split
  · intro h; simp at h
  · exact id

lemma applyGenericFailure_id (c : PendingCall) (m : String) (x : ImageFile) :
    (applyGenericFailure c m x).id = x.id := by
  unfold applyGenericFailure; split <;> rfl

/-! ## Single-flight invariant preservation -/

lemma procCount_map_le {l : List ImageFile} {f : ImageFile → ImageFile}
    (h : ∀ x, ((f x).status == ImageStatus.PROCESSING) = true →
              (x.status == ImageStatus.PROCESSING) = true) :
    procCount (l.map f) ≤ procCount l :=
  countP_map_le h

/-- Under the no-record-PROCESSING guard, marking the selected record
PROCESSING yields as many PROCESSING records as there are records
carrying the selected id. -/
lemma procCount_markProcessing {l : List ImageFile} (n : ImageFile)
    (hall : ∀ x ∈ l, (x.status == ImageStatus.PROCESSING) = false)
    (hids : (l.map (fun i => i.id)).Nodup) :
    procCount (l.map (markProcessing n)) ≤ 1 := by
  unfold procCount
  rw [List.countP_map]
  have hagree : l.countP ((fun img => img.status == ImageStatus.PROCESSING) ∘ markProcessing n)
      = l.countP (fun x => x.id == n.id) := by
    apply countP_agree
    intro x hx
    cases hxid : (x.id == n.id) with
    | false => simp [Function.comp, markProcessing, hxid, hall x hx]
    | true => simp [Function.comp, markProcessing, hxid]
  rw [hagree]
  exact countP_id_le_one hids n.id

lemma inv_step {e : Event} {s u : Sys}
    (hcnt : procCount s.app.images ≤ 1)
    (hids : (s.app.images.map (fun i => i.id)).Nodup)
    (hok : FreshIds s e) (hstep : stepEvent e s = some u) :
    procCount u.app.images ≤ 1 ∧ (u.app.images.map (fun i => i.id)).Nodup := by
  cases e with
  | tick =>
      simp only [stepEvent, schedulerTick] at hstep
      split at hstep
      · exact absurd hstep (by simp)
      · split at hstep
        · exact absurd hstep (by simp)
        · rename_i hguard1 hguard2
          have hany : (s.app.images.any fun img =>
              img.status == ImageStatus.PROCESSING) = false := by
            revert hguard2
            cases s.app.images.any fun img => img.status == ImageStatus.PROCESSING
            · intro _; rfl
            · intro hg; exact absurd rfl hg
          have hall : ∀ x ∈ s.app.images,
              (x.status == ImageStatus.PROCESSING) = false := by
            intro x hx
            have := List.any_eq_false.mp hany x hx
            revert this
            cases x.status == ImageStatus.PROCESSING
            · intro _; rfl
            · intro hg; exact absurd rfl hg
          split at hstep
          · -- queue drained
            rename_i hfind
            split at hstep
            · -- automatic retry pass
              rcases Option.some.injEq _ _ ▸ hstep with rfl
              refine ⟨le_trans (procCount_map_le (autoRequeue_proc _)) hcnt, ?_⟩
              rw [map_ids_map (autoRequeue_id _)]
              exact hids
            · rcases Option.some.injEq _ _ ▸ hstep with rfl
              exact ⟨hcnt, hids⟩
          · -- dispatch
            rename_i nextImage hfind
            split at hstep
            · rcases Option.some.injEq _ _ ▸ hstep with rfl
              refine ⟨procCount_markProcessing nextImage hall hids, ?_⟩
              rw [map_ids_map (markProcessing_id nextImage)]
              exact hids
            · rcases Option.some.injEq _ _ ▸ hstep with rfl
              constructor
              · exact le_trans (procCount_map_le (markInvalidData_proc nextImage))
                  (procCount_markProcessing nextImage hall hids)
              · rw [map_ids_map (markInvalidData_id nextImage),
                    map_ids_map (markProcessing_id nextImage)]
                exact hids
  | resolve i o =>
      simp only [stepEvent] at hstep
      split at hstep
      · exact absurd hstep (by simp)
      · rename_i call hcall
        cases o with
        | success d =>
            rcases Option.some.injEq _ _ ▸ hstep with rfl
            dsimp only [resolveSuccess]
            refine ⟨le_trans (procCount_map_le (applyEditSuccess_proc call d)) hcnt, ?_⟩
            rw [map_ids_map (applyEditSuccess_id call d)]
            exact hids
        | rateLimited =>
            rcases Option.some.injEq _ _ ▸ hstep with rfl
            dsimp only [resolveRateLimit]
            refine ⟨le_trans (procCount_map_le (applyRateLimitRequeue_proc call)) hcnt, ?_⟩
            rw [map_ids_map (applyRateLimitRequeue_id call)]
            exact hids
        | genericError m =>
            rcases Option.some.injEq _ _ ▸ hstep with rfl
            dsimp only [resolveGenericError]
            refine ⟨le_trans (procCount_map_le (applyGenericFailure_proc call m)) hcnt, ?_⟩
            rw [map_ids_map (applyGenericFailure_id call m)]
            exact hids
  | cooldownFires =>
      simp only [stepEvent] at hstep
      rcases Option.map_eq_some'.mp hstep with ⟨a', ha', rfl⟩
      simp only [cooldownElapsed] at ha'
      split at ha'
      · rcases Option.some.injEq _ _ ▸ ha' with rfl
        exact ⟨hcnt, hids⟩
      · exact absurd ha' (by simp)
  | cancel =>
      simp only [stepEvent] at hstep
      rcases Option.map_eq_some'.mp hstep with ⟨a', ha', rfl⟩
      simp only [handleCancelProcessing] at ha'
      split at ha'
      · exact absurd ha' (by simp)
      · rcases Option.some.injEq _ _ ▸ ha' with rfl
        refine ⟨le_trans (procCount_map_le cancelRevert_proc) hcnt, ?_⟩
        rw [map_ids_map cancelRevert_id]
        exact hids
  | uploadImages files =>
      have hnodup := hok u hstep
      rcases Option.some.injEq _ _ ▸ hstep with rfl
      refine ⟨?_, by simpa using hnodup⟩
      simp only [handleImagesSelected, procCount]
      have hnew : (files.map (fun f =>
          ({ id := f.1, originalDataUrl := f.2.1, fileType := f.2.2,
             status := ImageStatus.QUEUED } : ImageFile))).countP
            (fun img => img.status == ImageStatus.PROCESSING) = 0 := by
        rw [List.countP_eq_zero]
        intro rec hrec
        rcases List.mem_map.mp hrec with ⟨f, _, rfl⟩
        simp
      by_cases hn : files.length > 0
      · simp only [hn, if_pos, List.countP_append, hnew]
        simpa [procCount] using hcnt
      · simp only [hn, if_neg, not_false_iff, List.countP_append, hnew]
        simpa [procCount] using hcnt
  | startBatch now rng =>
      have hnodup := hok u hstep
      simp only [stepEvent] at hstep
      rcases Option.map_eq_some'.mp hstep with ⟨a', ha', rfl⟩
      refine ⟨?_, by simpa using hnodup⟩
      simp only [startProcessing] at ha'
      split at ha'
      · exact absurd ha' (by simp)
      · split at ha'
        · exact absurd ha' (by simp)
        · split at ha'
          · exact absurd ha' (by simp)
          · rcases Option.some.injEq _ _ ▸ ha' with rfl
            simp only [procCount, List.countP_append]
            have hfil : (s.app.images.filter (fun img =>
                img.status != ImageStatus.QUEUED)).countP
                  (fun img => img.status == ImageStatus.PROCESSING)
                ≤ s.app.images.countP (fun img => img.status == ImageStatus.PROCESSING) :=
              (List.filter_sublist _).countP_le _
            have hexp : (expandQueuedRepeats s.app.currentPrompt s.app.repeatCount now rng
                (s.app.images.filter (fun img => img.status == ImageStatus.QUEUED))).countP
                  (fun img => img.status == ImageStatus.PROCESSING) = 0 := by
              rw [List.countP_eq_zero]
              intro y hy
              have hq : y.status = ImageStatus.QUEUED := by
                refine expandQueuedRepeats_status _ _ _ _ _ ?_ y hy
                intro x hx
                have := (List.mem_filter.mp hx).2
                exact beq_iff_eq.mp this
              simp [hq]
            rw [hexp]
            have := hcnt
            simp only [procCount] at this
            omega
  | retryFailed =>
      simp only [stepEvent] at hstep
      rcases Option.map_eq_some'.mp hstep with ⟨a', ha', rfl⟩
      simp only [handleRetryFailed] at ha'
      split at ha'
      · exact absurd ha' (by simp)
      · split at ha'
        · exact absurd ha' (by simp)
        · rcases Option.some.injEq _ _ ▸ ha' with rfl
          refine ⟨le_trans (procCount_map_le manualRequeue_proc) hcnt, ?_⟩
          rw [map_ids_map manualRequeue_id]
          exact hids

lemma reach_inv {s0 s : Sys}
    (h1 : procCount s0.app.images ≤ 1)
    (h2 : (s0.app.images.map (fun i => i.id)).Nodup)
    (hr : Reach s0 s) :
    procCount s.app.images ≤ 1 ∧ (s.app.images.map (fun i => i.id)).Nodup := by
  induction hr with
  | refl => exact ⟨h1, h2⟩
  | step _ hok hstep ih => exact inv_step ih.1 ih.2 hok hstep

/-! ## Error-field invariant preservation -/

/-- Pointwise form of the error-clearing invariant. -/
def PErr (x : ImageFile) : Prop :=
  x.status = ImageStatus.PROCESSING → x.error = none

lemma perr_map {l : List ImageFile} {f : ImageFile → ImageFile}
    (hf : ∀ x, PErr x → PErr (f x)) (hl : ∀ x ∈ l, PErr x) :
    ∀ y ∈ l.map f, PErr y := by
  intro y hy
  rcases List.mem_map.mp hy with ⟨x, hx, rfl⟩
  exact hf x (hl x hx)

lemma perr_autoRequeue (lst : List ImageFile) (x : ImageFile)
    (h : PErr x) : PErr (autoRequeue lst x) := by
  unfold autoRequeue; split
  · intro hp; simp at hp
  · exact h

lemma perr_cancelRevert (x : ImageFile) (h : PErr x) : PErr (cancelRevert x) := by
  unfold cancelRevert; split
  · intro hp; simp at hp
  · exact h

lemma perr_manualRequeue (x : ImageFile) (h : PErr x) : PErr (manualRequeue x) := by
  unfold manualRequeue; split
  · intro hp; simp at hp
  · exact h

lemma perr_markProcessing (n x : ImageFile) (h : PErr x) :
    PErr (markProcessing n x) := by
  unfold markProcessing; split
  · intro _; rfl
  · exact h

lemma perr_markInvalidData (n x : ImageFile) (h : PErr x) :
    PErr (markInvalidData n x) := by
  unfold markInvalidData; split
  · intro hp; simp at hp
  · exact h

lemma perr_applyEditSuccess (c : PendingCall) (d : String) (x : ImageFile)
    (h : PErr x) : PErr (applyEditSuccess c d x) := by
  unfold applyEditSuccess; split
  · intro hp; simp at hp
  · exact h

lemma perr_applyRateLimitRequeue (c : PendingCall) (x : ImageFile)
    (h : PErr x) : PErr (applyRateLimitRequeue c x) := by
  unfold applyRateLimitRequeue; split
  · intro hp; simp at hp
  · exact h

lemma perr_applyGenericFailure (c : PendingCall) (m : String) (x : ImageFile)
    (h : PErr x) : PErr (applyGenericFailure c m x) := by
  unfold applyGenericFailure; split
  · intro hp; simp at hp
  · exact h

lemma errInv_step {e : Event} {s u : Sys}
    (hs : ∀ x ∈ s.app.images, PErr x) (hstep : stepEvent e s = some u) :
    ∀ x ∈ u.app.images, PErr x := by
  cases e with
  | tick =>
      simp only [stepEvent, schedulerTick] at hstep
      split at hstep
      · exact absurd hstep (by simp)
      · split at hstep
        · exact absurd hstep (by simp)
        · split at hstep
          · rename_i hfind
            split at hstep
            · rcases Option.some.injEq _ _ ▸ hstep with rfl
              exact perr_map (perr_autoRequeue _) hs
            · rcases Option.some.injEq _ _ ▸ hstep with rfl
              exact hs
          · rename_i nextImage hfind
            split at hstep
            · rcases Option.some.injEq _ _ ▸ hstep with rfl
              exact perr_map (perr_markProcessing nextImage) hs
            · rcases Option.some.injEq _ _ ▸ hstep with rfl
              exact perr_map (perr_markInvalidData nextImage)
                (perr_map (perr_markProcessing nextImage) hs)
  | resolve i o =>
      simp only [stepEvent] at hstep
      split at hstep
      · exact absurd hstep (by simp)
      · rename_i call hcall
        cases o with
        | success d =>
            rcases Option.some.injEq _ _ ▸ hstep with rfl
            exact perr_map (perr_applyEditSuccess call d) hs
        | rateLimited =>
            rcases Option.some.injEq _ _ ▸ hstep with rfl
            exact perr_map (perr_applyRateLimitRequeue call) hs
        | genericError m =>
            rcases Option.some.injEq _ _ ▸ hstep with rfl
            exact perr_map (perr_applyGenericFailure call m) hs
  | cooldownFires =>
      simp only [stepEvent] at hstep
      rcases Option.map_eq_some'.mp hstep with ⟨a', ha', rfl⟩
      simp only [cooldownElapsed] at ha'
      split at ha'
      · rcases Option.some.injEq _ _ ▸ ha' with rfl
        exact hs
      · exact absurd ha' (by simp)
  | cancel =>
      simp only [stepEvent] at hstep
      rcases Option.map_eq_some'.mp hstep with ⟨a', ha', rfl⟩
      simp only [handleCancelProcessing] at ha'
      split at ha'
      · exact absurd ha' (by simp)
      · rcases Option.some.injEq _ _ ▸ ha' with rfl
        exact perr_map perr_cancelRevert hs
  | uploadImages files =>
      rcases Option.some.injEq _ _ ▸ hstep with rfl
      intro x hx
      simp only [handleImagesSelected] at hx
      by_cases hn : files.length > 0
      · simp only [hn, if_pos] at hx
        rcases List.mem_append.mp hx with hx | hx
        · exact hs x hx
        · rcases List.mem_map.mp hx with ⟨f, _, rfl⟩
          intro hp; simp at hp
      · simp only [hn, if_neg, not_false_iff] at hx
        rcases List.mem_append.mp hx with hx | hx
        · exact hs x hx
        · rcases List.mem_map.mp hx with ⟨f, _, rfl⟩
          intro hp; simp at hp
  | startBatch now rng =>
      simp only [stepEvent] at hstep
      rcases Option.map_eq_some'.mp hstep with ⟨a', ha', rfl⟩
      simp only [startProcessing] at ha'
      split at ha'
      · exact absurd ha' (by simp)
      · split at ha'
        · exact absurd ha' (by simp)
        · split at ha'
          · exact absurd ha' (by simp)
          · rcases Option.some.injEq _ _ ▸ ha' with rfl
            intro x hx
            rcases List.mem_append.mp hx with hx | hx
            · exact hs x (List.mem_of_mem_filter hx)
            · have hq : x.status = ImageStatus.QUEUED := by
                refine expandQueuedRepeats_status _ _ _ _ _ ?_ x hx
                intro z hz
                exact beq_iff_eq.mp (List.mem_filter.mp hz).2
              intro hp
              rw [hq] at hp
              exact absurd hp (by simp)
  | retryFailed =>
      simp only [stepEvent] at hstep
      rcases Option.map_eq_some'.mp hstep with ⟨a', ha', rfl⟩
      simp only [handleRetryFailed] at ha'
      split at ha'
      · exact absurd ha' (by simp)
      · split at ha'
        · exact absurd ha' (by simp)
        · rcases Option.some.injEq _ _ ▸ ha' with rfl
          exact perr_map perr_manualRequeue hs

lemma reach_errInv {s0 s : Sys}
    (h0 : ∀ x ∈ s0.app.images, PErr x) (hr : Reach s0 s) :
    ∀ x ∈ s.app.images, PErr x := by
  induction hr with
  | refl => exact h0
  | step _ _ hstep ih => exact errInv_step ih hstep

/-! ## Claim theorems -/

/-- Claim C1.  The claim states that after a batch is cancelled, a late
resolution of the in-flight edit call never overwrites the cancelled
record.  The code has no generation tagging: this theorem computes the
claimed scenario and shows that cancel does revert the dispatched record
to QUEUED, but the late resolution then overwrites it to COMPLETED (on
success) or ERROR (on failure) even though the batch is idle. -/
theorem c1_stale_resolution_overwrites_cancelled :
    ((runEvents batchOfOne [Event.tick, Event.cancel]).map
        (fun s => (s.app.images.map (fun i => i.status), s.app.isProcessing,
                   s.pending.length))
      = some ([ImageStatus.QUEUED], false, 1)) ∧
    ((runEvents batchOfOne [Event.tick, Event.cancel,
          Event.resolve 0 (Outcome.success "EDITED")]).map
        (fun s => (s.app.images.map (fun i => i.status), s.app.isProcessing))
      = some ([ImageStatus.COMPLETED], false)) ∧
    ((runEvents batchOfOne [Event.tick, Event.cancel,
          Event.resolve 0 (Outcome.genericError "API call failed: boom")]).map
        (fun s => s.app.images.map (fun i => (i.status, i.error)))
      = some [(ImageStatus.ERROR, some "API call failed: boom")]) :=
  ⟨by decide, by decide, by decide⟩

/-- Claim C2.  Single-flight invariant: along every scheduler-driven
event trace from a store with at most one PROCESSING record and unique
ids, no two distinct records are ever simultaneously PROCESSING; and the
scheduler's tick refuses to dequeue whenever any record is PROCESSING. -/
theorem c2_single_flight (s0 s : Sys)
    (hproc : procCount s0.app.images ≤ 1)
    (hids : (s0.app.images.map (fun i => i.id)).Nodup)
    (hr : Reach s0 s) :
    NoTwoProcessing s ∧
    ∀ t : Sys,
      (t.app.images.any fun img => img.status == ImageStatus.PROCESSING) = true →
      stepEvent Event.tick t = none := by
  constructor
  · intro i j hij hconj
    have hinv := (reach_inv hproc hids hr).1
    have h2 := countP_two_of_get s.app.images
      (fun img => img.status == ImageStatus.PROCESSING) i j hij
      (by simpa using hconj.1) (by simpa using hconj.2)
    simp only [procCount] at hinv
    omega
  · intro t ht
    simp [stepEvent, schedulerTick, ht]

/-- Instantiation of the single-flight theorem at a concrete state. -/
theorem c2_single_flight_witness : NoTwoProcessing batchOfOne :=
  (c2_single_flight batchOfOne batchOfOne (by decide) (by decide)
    (Reach.refl batchOfOne)).1

/-- Claim C3, counterexample.  The claim states the error field is set
only in status ERROR; but a rate-limited resolution leaves the record
QUEUED while carrying the non-empty error "Rate limited. Will retry.". -/
theorem c3_counterexample_queued_error :
    (runEvents batchOfOne [Event.tick, Event.resolve 0 Outcome.rateLimited]).map
        (fun s => s.app.images.map (fun i => (i.status, i.error)))
      = some [(ImageStatus.QUEUED, some "Rate limited. Will retry.")] := by
  decide

/-- Claim C3, amended.  What the code guarantees is weaker than claimed:
a record is never PROCESSING with a non-empty error (dispatch clears the
error), but QUEUED records may carry errors (rate-limit requeue, tagging
failures).  The amended invariant holds along every scheduler trace. -/
theorem c3_error_cleared_when_processing (s0 s : Sys)
    (h0 : ErrClearedWhenProcessing s0) (hr : Reach s0 s) :
    ErrClearedWhenProcessing s :=
  reach_errInv h0 hr

/-- Instantiation of the amended error invariant at a concrete state. -/
theorem c3_error_cleared_witness : ErrClearedWhenProcessing batchOfOne :=
  c3_error_cleared_when_processing batchOfOne batchOfOne
    (by unfold ErrClearedWhenProcessing; decide) (Reach.refl batchOfOne)

/-- Claim C4.  Retry boundedness: a one-record batch failing with a
Generic error is requeued once by the automatic retry pass (with
`retried = true`), fails again, rests in ERROR with `retried = true`,
the batch goes idle, and a further tick is refused (no loop). -/
theorem c4_retry_bounded :
    ((runEvents batchOfOne [Event.tick,
          Event.resolve 0 (Outcome.genericError "API call failed: boom"),
          Event.tick]).map
        (fun s => (s.app.images.map (fun i => (i.status, i.error, i.retried)),
                   s.app.isProcessing))
      = some ([(ImageStatus.QUEUED, none, true)], true)) ∧
    ((runEvents batchOfOne [Event.tick,
          Event.resolve 0 (Outcome.genericError "API call failed: boom"),
          Event.tick, Event.tick,
          Event.resolve 0 (Outcome.genericError "API call failed: boom"),
          Event.tick]).map
        (fun s => (s.app.images.map (fun i => (i.status, i.error, i.retried)),
                   s.app.isProcessing))
      = some ([(ImageStatus.ERROR, some "API call failed: boom", true)], false)) ∧
    (runEvents batchOfOne [Event.tick,
          Event.resolve 0 (Outcome.genericError "API call failed: boom"),
          Event.tick, Event.tick,
          Event.resolve 0 (Outcome.genericError "API call failed: boom"),
          Event.tick, Event.tick]
      = none) :=
  ⟨by decide, by decide, by decide⟩

/-- Claim C5.  Rate-limit cooldown: a rate-limited resolution returns
the record to QUEUED (not ERROR) and enters cooldown; no tick dequeues
while cooling down (in any state); once the cooldown timer fires the
scheduler resumes and dispatches the record again. -/
theorem c5_rate_limit_cooldown :
    (∀ t : Sys, t.app.isCoolingDown = true → stepEvent Event.tick t = none) ∧
    ((runEvents batchOfOne [Event.tick, Event.resolve 0 Outcome.rateLimited]).map
        (fun s => (s.app.images.map (fun i => i.status), s.app.isCoolingDown))
      = some ([ImageStatus.QUEUED], true)) ∧
    ((runEvents batchOfOne [Event.tick, Event.resolve 0 Outcome.rateLimited,
          Event.cooldownFires]).map (fun s => s.app.isCoolingDown)
      = some false) ∧
    ((runEvents batchOfOne [Event.tick, Event.resolve 0 Outcome.rateLimited,
          Event.cooldownFires, Event.tick]).map
        (fun s => s.app.images.map (fun i => i.status))
      = some [ImageStatus.PROCESSING]) := by
  refine ⟨?_, by decide, by decide, by decide⟩
  intro t ht
  simp [stepEvent, schedulerTick, ht]

/-- Instantiation of the cooldown guard at a concrete cooling state. -/
theorem c5_rate_limit_cooldown_witness :
    stepEvent Event.tick coolingState = none :=
  c5_rate_limit_cooldown.1 coolingState rfl

/-- Claim C6.  Repeat expansion without randomization: starting a batch
with 2 queued records and repeat count 3 replaces the queued set with
exactly 6 QUEUED records, 3 per source, each clone sharing its source's
composed prompt with a distinct id, and sets the batch denominator to 6. -/
theorem c6_repeat_expansion :
    ((stepEvent (Event.startBatch 100 (fun k => k)) twoQueuedStart).map
        (fun s => (s.app.images.map (fun i => (i.id, i.prompt, i.status)),
                   s.app.totalInBatch, s.app.isProcessing))
      = some ([("img1", some "a, b, c", ImageStatus.QUEUED),
               ("img2", some "a, b", ImageStatus.QUEUED),
               ("img1-repeat-1-100-0", some "a, b, c", ImageStatus.QUEUED),
               ("img1-repeat-2-100-1", some "a, b, c", ImageStatus.QUEUED),
               ("img2-repeat-1-100-2", some "a, b", ImageStatus.QUEUED),
               ("img2-repeat-2-100-3", some "a, b", ImageStatus.QUEUED)],
              6, true)) ∧
    ((stepEvent (Event.startBatch 100 (fun k => k)) twoQueuedStart).map
        (fun s => decide ((s.app.images.map (fun i => i.id)).Nodup))
      = some true) :=
  ⟨by decide, by decide⟩

/-- Claim C7.  Tag-mode composition deduplicates by set union preserving
first-seen order across global, image and random inputs: composing
"a, b" with "b, c" and no random fragments yields exactly "a, b, c". -/
theorem c7_compose_dedup :
    composeTagsRand "a, b" "b, c" [] = "a, b, c" ∧
    composeTags "a, b" "b, c" = "a, b, c" :=
  ⟨by decide, by decide⟩

/-- Claim C8, counterexample.  The claim states the single-image edit
modal applies the same tag normalization as the batch paths; but the
modal first truncates the response at the first period, so on
"cat. dog, bird" the two pipelines disagree. -/
theorem c8_counterexample_modal_truncates :
    modalTagNormalize "cat. dog, bird" = "cat" ∧
    normalizeTags "cat. dog, bird" = "cat. dog, bird" ∧
    modalTagNormalize "cat. dog, bird" ≠ normalizeTags "cat. dog, bird" :=
  ⟨by decide, by decide, by decide⟩

/-- Claim C8, amended.  The batch-path normalization performs the stated
strip/trim/split/lowercase/drop/dedup/rejoin steps, and the modal's
auto-tag step equals that same normalization applied after truncating
the response at its first period. -/
theorem c8_tagging_normalization :
    (∀ r : String, modalTagNormalize r = normalizeTags ((jsSplit '.' r).headD "")) ∧
    normalizeTags " Red, red,  BLUE, , green." = "red, blue, green" ∧
    normalizeTags "tag one, Tag One, tag two." = "tag one, tag two" :=
  ⟨fun _ => rfl, by decide, by decide⟩

/-- Claim C9, counterexample.  The claim states the very first dequeue
of every batch has zero delay; but the delay check scans the whole store
for COMPLETED/ERROR records, so a batch started while a record completed
in an earlier batch is still present dequeues its first record with the
full throttle delay (5000 ms here), despite zero records processed in
the current batch. -/
theorem c9_counterexample_first_dequeue_delayed :
    ((stepEvent (Event.startBatch 0 (fun k => k)) leftoverStart).map
        (fun s => (dispatchDelay s.app, processedInBatch s.app,
                   s.app.totalInBatch, s.app.isProcessing))
      = some (5000, 0, 1, true)) ∧
    ((runEvents leftoverStart [Event.startBatch 0 (fun k => k), Event.tick]).map
        (fun s => s.app.images.map (fun i => (i.id, i.status)))
      = some [("old", ImageStatus.COMPLETED), ("B", ImageStatus.PROCESSING)]) ∧
    (5000 : Nat) ≠ 0 :=
  ⟨by decide, by decide, by decide⟩

/-- Claim C9, amended.  The pre-dequeue delay equals the configured
throttle interval exactly when some record anywhere in the store is
COMPLETED or ERROR, and zero otherwise; the first dequeue of a batch is
zero-delay only when the store holds no such leftover records, as in the
fresh-store batch computed here. -/
theorem c9_throttle_delay_rule :
    (∀ a : AppState,
        (a.images.any fun i => i.status == ImageStatus.COMPLETED ||
          i.status == ImageStatus.ERROR) = false → dispatchDelay a = 0) ∧
    (∀ a : AppState,
        (a.images.any fun i => i.status == ImageStatus.COMPLETED ||
          i.status == ImageStatus.ERROR) = true →
        dispatchDelay a = a.throttleDelay * 1000) ∧
    ((stepEvent (Event.startBatch 0 (fun k => k)) freshStart).map
        (fun s => dispatchDelay s.app) = some 0) := by
  refine ⟨?_, ?_, by decide⟩
  · intro a ha; simp [dispatchDelay, ha]
  · intro a ha; simp [dispatchDelay, ha]

/-- Instantiation of the amended delay rule at a concrete store. -/
theorem c9_throttle_delay_rule_witness : dispatchDelay freshStart.app = 0 :=
  c9_throttle_delay_rule.1 freshStart.app (by decide)

/-- Claim C10.  Every non-empty upload of n files overwrites the
configured repeat count with max(1, ceil(40/n)) regardless of its
previous value, appends the n new records with status QUEUED, and grows
a running batch's denominator by n. -/
theorem c10_upload_overwrites_repeat_count
    (a : AppState) (files : List (String × String × String))
    (h : 0 < files.length) :
    (handleImagesSelected files a).repeatCount
      = max 1 ((40 + files.length - 1) / files.length) ∧
    (handleImagesSelected files a).images
      = a.images ++ files.map (fun f =>
          ({ id := f.1, originalDataUrl := f.2.1, fileType := f.2.2,
             status := ImageStatus.QUEUED } : ImageFile)) ∧
    (handleImagesSelected files a).totalInBatch
      = (if a.isProcessing then a.totalInBatch + files.length
         else a.totalInBatch) := by
  simp [handleImagesSelected, h]

/-- Instantiation of the upload rule at a one-file upload. -/
theorem c10_upload_overwrites_repeat_count_witness :
    (handleImagesSelected [("f1", "data:image/png;base64,AAA", "image/png")]
        { images := [] }).repeatCount
      = max 1 ((40 + 1 - 1) / 1) :=
  (c10_upload_overwrites_repeat_count { images := [] }
    [("f1", "data:image/png;base64,AAA", "image/png")] (by decide)).1

end NanoBanana
